import Mathlib

/- Shallow embedding of the snake simulation in gym_snake/envs/snake_env.py.

Board cells hold 0 (empty), 1 (snake) or 2 (food), mirroring the numpy
uint8 grid indexed as board[(x, y)]. The snake deque is stored as a list
with the most recent head first: the python deque appends new heads on
the right and pops the tail from the left, which is mirrored here by
cons at the front and dropLast at the back. The call
random.choice(np.argwhere(board == 0)), which picks an arbitrary empty
cell in row major order, is modelled by an explicit choice index k
ranging over all naturals; an empty candidate list (IndexError in the
source) corresponds to listChoice returning none. -/

abbrev Coord := Int × Int

def addc (a b : Coord) : Coord := (a.1 + b.1, a.2 + b.2)

inductive Dir where
  | north
  | east
  | south
  | west
  deriving DecidableEq

def Dir.value : Dir → Coord
  | Dir.north => (0, 1)
  | Dir.east => (1, 0)
  | Dir.south => (0, -1)
  | Dir.west => (-1, 0)

inductive Event where
  | dead
  | win
  | eat (c : Coord)
  | newFood (c : Coord)
  | add (c : Coord)
  | remove (c : Coord)
  deriving DecidableEq

structure SnakeGame where
  width : Nat
  height : Nat
  game_over : Bool
  current_dir : Dir
  board : Coord → Nat
  snake_squares : List Coord
  food_square : Coord

def updateBoard (b : Coord → Nat) (c : Coord) (v : Nat) : Coord → Nat :=
  fun x => if x = c then v else b x

def inBounds (w h : Nat) (c : Coord) : Prop :=
  0 ≤ c.1 ∧ c.1 < (w : Int) ∧ 0 ≤ c.2 ∧ c.2 < (h : Int)

instance (w h : Nat) (c : Coord) : Decidable (inBounds w h c) :=
  inferInstanceAs (Decidable (0 ≤ c.1 ∧ c.1 < (w : Int) ∧ 0 ≤ c.2 ∧ c.2 < (h : Int)))

def allCells (w h : Nat) : List Coord :=
  (List.range w).flatMap fun (x : Nat) =>
    (List.range h).map fun (y : Nat) => (Int.ofNat x, Int.ofNat y)

def emptyCells (w h : Nat) (b : Coord → Nat) : List Coord :=
  (allCells w h).filter fun c => decide (b c = 0)

def listChoice (l : List Coord) (k : Nat) : Option Coord :=
  l[k % l.length]?

def SnakeGame.reset (w h : Nat) (head : Coord) (k : Nat) : Option SnakeGame :=
  let b := updateBoard (fun _ => 0) head 1
  match listChoice (emptyCells w h b) k with
  | none => none
  | some food =>
    some { width := w, height := h, game_over := false, current_dir := Dir.north,
           board := updateBoard b food 2, snake_squares := [head], food_square := food }

def SnakeGame.resolvedDir (g : SnakeGame) (direction : Dir) : Dir :=
  match g.snake_squares with
  | [] => direction
  | old_head :: body =>
    if body.head? = some (addc old_head direction.value) then g.current_dir else direction

def SnakeGame.candidateHead (g : SnakeGame) (direction : Dir) : Coord :=
  match g.snake_squares with
  | [] => (0, 0)
  | old_head :: _ => addc old_head (g.resolvedDir direction).value

def SnakeGame.commitHead (g : SnakeGame) (new_head : Coord) (events : List Event) :
    SnakeGame × List Event :=
  if g.board new_head = 1 then
    ({ g with game_over := true }, [Event.dead])
  else
    ({ g with board := updateBoard g.board new_head 1,
              snake_squares := new_head :: g.snake_squares },
      events ++ [Event.add new_head])

def SnakeGame.stepCore (g : SnakeGame) (new_head : Coord) (k : Nat) :
    SnakeGame × List Event :=
  if ¬ inBounds g.width g.height new_head then
    ({ g with game_over := true }, [Event.dead])
  else if new_head = g.food_square then
    match listChoice (emptyCells g.width g.height g.board) k with
    | none => ({ g with game_over := true }, [Event.eat g.food_square, Event.win])
    | some nf =>
      SnakeGame.commitHead
        { g with food_square := nf, board := updateBoard g.board nf 2 }
        new_head
        [Event.eat g.food_square, Event.newFood nf]
  else
    SnakeGame.commitHead
      { g with board := updateBoard g.board (g.snake_squares.getLastD (0, 0)) 0,
               snake_squares := g.snake_squares.dropLast }
      new_head
      [Event.remove (g.snake_squares.getLastD (0, 0))]

def SnakeGame.step (g : SnakeGame) (direction : Dir) (k : Nat) :
    SnakeGame × List Event :=
  if g.game_over then (g, [])
  else
    match g.snake_squares with
    | [] => (g, [])
    | _ :: _ =>
      SnakeGame.stepCore { g with current_dir := g.resolvedDir direction }
        (g.candidateHead direction) k

def actionDir (action : Int) : Dir :=
  if action = 0 then Dir.north
  else if action = 1 then Dir.east
  else if action = 2 then Dir.south
  else Dir.west

def isEat : Event → Bool
  | Event.eat _ => true
  | _ => false

def eventReward (r : Int) (e : Event) : Int :=
  match e with
  | Event.dead => -1
  | Event.eat _ => 1
  | _ => r

def computeReward (events : List Event) : Int :=
  events.foldl eventReward 0

structure StepResult where
  board : Option (Coord → Nat)
  reward : Int
  done : Bool

def SnakeEnv.step (g : SnakeGame) (action : Int) (k : Nat) :
    Option (SnakeGame × StepResult) :=
  if g.game_over then
    some (g, { board := none, reward := 0, done := true })
  else if ¬ (0 ≤ action ∧ action < 4) then none
  else
    let r := g.step (actionDir action) k
    some (r.1, { board := some r.1.board, reward := computeReward r.2,
                 done := r.1.game_over })

def boardRep (snake : List Coord) (food : Coord) : Coord → Nat :=
  fun c => if c = food then 2 else if c ∈ snake then 1 else 0

structure Valid (g : SnakeGame) : Prop where
  ne : g.snake_squares ≠ []
  nodup : g.snake_squares.Nodup
  snake_in : ∀ c ∈ g.snake_squares, inBounds g.width g.height c
  food_in : inBounds g.width g.height g.food_square
  food_not : g.food_square ∉ g.snake_squares
  rep : ∀ c, g.board c = boardRep g.snake_squares g.food_square c

def gW : SnakeGame :=
  { width := 10, height := 10, game_over := false, current_dir := Dir.north,
    board := boardRep [((4 : Int), (0 : Int))] ((8 : Int), (8 : Int)),
    snake_squares := [((4 : Int), (0 : Int))],
    food_square := ((8 : Int), (8 : Int)) }

def gB : SnakeGame :=
  { width := 10, height := 10, game_over := false, current_dir := Dir.south,
    board := boardRep [((4 : Int), (4 : Int)), ((4 : Int), (5 : Int))] ((8 : Int), (8 : Int)),
    snake_squares := [((4 : Int), (4 : Int)), ((4 : Int), (5 : Int))],
    food_square := ((8 : Int), (8 : Int)) }

def gC : SnakeGame :=
  { width := 2, height := 2, game_over := false, current_dir := Dir.north,
    board := boardRep [((0 : Int), (1 : Int)), ((0 : Int), (0 : Int)), ((1 : Int), (0 : Int))]
      ((1 : Int), (1 : Int)),
    snake_squares := [((0 : Int), (1 : Int)), ((0 : Int), (0 : Int)), ((1 : Int), (0 : Int))],
    food_square := ((1 : Int), (1 : Int)) }

def gU : SnakeGame :=
  { width := 5, height := 5, game_over := false, current_dir := Dir.west,
    board := boardRep
      [((1 : Int), (1 : Int)), ((2 : Int), (1 : Int)), ((2 : Int), (0 : Int)),
       ((1 : Int), (0 : Int)), ((0 : Int), (0 : Int))] ((4 : Int), (4 : Int)),
    snake_squares :=
      [((1 : Int), (1 : Int)), ((2 : Int), (1 : Int)), ((2 : Int), (0 : Int)),
       ((1 : Int), (0 : Int)), ((0 : Int), (0 : Int))],
    food_square := ((4 : Int), (4 : Int)) }

def gOver : SnakeGame := { gW with game_over := true }

def gR : SnakeGame :=
  { width := 2, height := 2, game_over := false, current_dir := Dir.north,
    board := updateBoard (updateBoard (fun _ => 0) ((0 : Int), (0 : Int)) 1)
      ((0 : Int), (1 : Int)) 2,
    snake_squares := [((0 : Int), (0 : Int))],
    food_square := ((0 : Int), (1 : Int)) }

lemma updateBoard_self (b : Coord → Nat) (c : Coord) (v : Nat) :
    updateBoard b c v c = v := by
  simp [updateBoard]

lemma updateBoard_of_ne (b : Coord → Nat) (c x : Coord) (v : Nat) (h : x ≠ c) :
    updateBoard b c v x = b x := by
  simp [updateBoard, h]

lemma listChoice_mem (l : List Coord) (k : Nat) (c : Coord)
    (h : listChoice l k = some c) : c ∈ l := by
  unfold listChoice at h
  exact List.getElem?_mem h

lemma listChoice_eq_none (l : List Coord) (k : Nat) :
    listChoice l k = none ↔ l = [] := by
  unfold listChoice
  constructor
  · intro h
    cases l with
    | nil => rfl
    | cons a t =>
      rw [List.getElem?_eq_none_iff] at h
      exact absurd (Nat.mod_lt k (by simp)) (Nat.not_lt.mpr h)
  · intro h
    subst h
    rfl

lemma emptyCells_mem (w h : Nat) (b : Coord → Nat) (c : Coord)
    (hc : c ∈ emptyCells w h b) : b c = 0 ∧ inBounds w h c := by
  unfold emptyCells allCells at hc
  rw [List.mem_filter] at hc
  obtain ⟨hall, h0⟩ := hc
  rw [List.mem_flatMap] at hall
  obtain ⟨x, hxr, hmem⟩ := hall
  rw [List.mem_map] at hmem
  obtain ⟨y, hyr, hc⟩ := hmem
  rw [List.mem_range] at hxr
  rw [List.mem_range] at hyr
  subst hc
  rw [decide_eq_true_eq] at h0
  refine ⟨h0, ?_, ?_, ?_, ?_⟩ <;> simp [Int.ofNat_eq_coe] <;> omega

lemma boardRep_food (snake : List Coord) (food : Coord) :
    boardRep snake food food = 2 := by
  simp [boardRep]

lemma boardRep_eq_zero (snake : List Coord) (food c : Coord)
    (h : boardRep snake food c = 0) : c ≠ food ∧ c ∉ snake := by
  unfold boardRep at h
  constructor
  · intro hc
    simp [hc] at h
  · intro hc
    by_cases hf : c = food <;> simp [hf, hc] at h

lemma dropLast_append_getLastD (l : List Coord) (d : Coord) (h : l ≠ []) :
    l.dropLast ++ [l.getLastD d] = l := by
  rw [List.getLastD_eq_getLast?, List.getLast?_eq_getLast l h, Option.getD_some]
  exact List.dropLast_append_getLast h

lemma getLastD_mem (l : List Coord) (d : Coord) (h : l ≠ []) :
    l.getLastD d ∈ l := by
  cases l with
  | nil => exact absurd rfl h
  | cons a t =>
    rw [List.getLastD_cons]
    exact List.getLastD_mem_cons t a

lemma getLastD_not_mem_dropLast (l : List Coord) (d : Coord) (h : l ≠ [])
    (hn : l.Nodup) : l.getLastD d ∉ l.dropLast := by
  rw [← dropLast_append_getLastD l d h] at hn
  rw [List.nodup_append] at hn
  intro hc
  exact hn.2.2 hc (by simp)

lemma nodup_dropLast (l : List Coord) (hn : l.Nodup) : l.dropLast.Nodup :=
  hn.sublist (List.dropLast_sublist l)

lemma mem_dropLast_or_getLastD (l : List Coord) (d c : Coord) (h : l ≠ []) :
    c ∈ l ↔ c ∈ l.dropLast ∨ c = l.getLastD d := by
  have hd := dropLast_append_getLastD l d h
  constructor
  · intro hc
    rw [← hd] at hc
    rcases List.mem_append.mp hc with h1 | h2
    · exact Or.inl h1
    · exact Or.inr (List.mem_singleton.mp h2)
  · intro hc
    rw [← hd]
    rcases hc with h1 | h2
    · exact List.mem_append_left _ h1
    · exact List.mem_append_right _ (List.mem_singleton.mpr h2)

lemma commitHead_dead (g : SnakeGame) (nh : Coord) (ev : List Event)
    (h : g.board nh = 1) :
    g.commitHead nh ev = ({ g with game_over := true }, [Event.dead]) := by
  unfold SnakeGame.commitHead
  rw [if_pos h]

lemma commitHead_grow (g : SnakeGame) (nh : Coord) (ev : List Event)
    (h : ¬ g.board nh = 1) :
    g.commitHead nh ev =
      ({ g with board := updateBoard g.board nh 1,
                snake_squares := nh :: g.snake_squares }, ev ++ [Event.add nh]) := by
  unfold SnakeGame.commitHead
  rw [if_neg h]

lemma valid_set_game_over (g : SnakeGame) (hv : Valid g) :
    Valid { g with game_over := true } :=
  ⟨hv.ne, hv.nodup, hv.snake_in, hv.food_in, hv.food_not, hv.rep⟩

lemma valid_set_dir (g : SnakeGame) (d : Dir) (hv : Valid g) :
    Valid { g with current_dir := d } :=
  ⟨hv.ne, hv.nodup, hv.snake_in, hv.food_in, hv.food_not, hv.rep⟩

lemma step_eq_stepCore (g : SnakeGame) (d : Dir) (k : Nat)
    (h0 : g.game_over = false) (hne : g.snake_squares ≠ []) :
    g.step d k =
      SnakeGame.stepCore { g with current_dir := g.resolvedDir d }
        (g.candidateHead d) k := by
  cases hs : g.snake_squares with
  | nil => exact absurd hs hne
  | cons a t => simp [SnakeGame.step, h0, hs]

lemma commitHead_current_dir (g : SnakeGame) (nh : Coord) (ev : List Event) :
    (g.commitHead nh ev).1.current_dir = g.current_dir := by
  unfold SnakeGame.commitHead
  split <;> rfl

lemma stepCore_current_dir (g : SnakeGame) (nh : Coord) (k : Nat) :
    (g.stepCore nh k).1.current_dir = g.current_dir := by
  unfold SnakeGame.stepCore
  split
  · rfl
  · split
    · split
      · rfl
      · rw [commitHead_current_dir]
    · rw [commitHead_current_dir]

lemma valid_mk (w h : Nat) (go : Bool) (cd : Dir) (b : Coord → Nat)
    (snake : List Coord) (food : Coord)
    (hne : snake ≠ []) (hnodup : snake.Nodup)
    (hsin : ∀ c ∈ snake, inBounds w h c)
    (hfin : inBounds w h food) (hfnot : food ∉ snake)
    (hrep : ∀ c, b c = boardRep snake food c) :
    Valid { width := w, height := h, game_over := go, current_dir := cd,
            board := b, snake_squares := snake, food_square := food } :=
  ⟨hne, hnodup, hsin, hfin, hfnot, hrep⟩

lemma valid_stepCore (g : SnakeGame) (nh : Coord) (k : Nat) (hv : Valid g) :
    Valid (g.stepCore nh k).1 := by
  unfold SnakeGame.stepCore SnakeGame.commitHead
  split
  · exact valid_set_game_over g hv
  · rename_i hb
    rw [not_not] at hb
    split
    · rename_i hf
      split
      · exact valid_set_game_over g hv
      · rename_i nf hch
        have hmem := listChoice_mem _ _ _ hch
        obtain ⟨hnf0, hnfin⟩ := emptyCells_mem _ _ _ _ hmem
        obtain ⟨hnffood, hnfsnake⟩ :=
          boardRep_eq_zero g.snake_squares g.food_square nf (by rw [← hv.rep]; exact hnf0)
        have hnhnf : nh ≠ nf := by
          intro hc; rw [hc] at hf; exact hnffood hf
        split
        · rename_i hcol
          exfalso
          have hcol2 : updateBoard g.board nf 2 nh = 1 := hcol
          rw [updateBoard_of_ne _ _ _ _ hnhnf, hv.rep, hf, boardRep_food] at hcol2
          omega
        · rename_i hcol
          have hfoodnot : nh ∉ g.snake_squares := by rw [hf]; exact hv.food_not
          refine valid_mk _ _ _ _ _ _ _ (List.cons_ne_nil _ _)
            (List.nodup_cons.mpr ⟨hfoodnot, hv.nodup⟩) ?_ hnfin ?_ ?_
          · intro c hc
            rcases List.mem_cons.mp hc with hc | hc
            · rw [hc]; exact hb
            · exact hv.snake_in c hc
          · intro hc
            rcases List.mem_cons.mp hc with hc | hc
            · exact hnhnf hc.symm
            · exact hnfsnake hc
          · intro c
            show updateBoard (updateBoard g.board nf 2) nh 1 c
              = boardRep (nh :: g.snake_squares) nf c
            by_cases hcnh : c = nh
            · rw [hcnh, updateBoard_self]
              unfold boardRep
              rw [if_neg hnhnf, if_pos (List.mem_cons_self _ _)]
            · rw [updateBoard_of_ne _ _ _ _ hcnh]
              by_cases hcnf : c = nf
              · rw [hcnf, updateBoard_self]
                exact (boardRep_food _ _).symm
              · rw [updateBoard_of_ne _ _ _ _ hcnf, hv.rep]
                unfold boardRep
                have hcfood : ¬ c = g.food_square := by rw [← hf]; exact hcnh
                rw [if_neg hcfood, if_neg hcnf]
                by_cases hcs : c ∈ g.snake_squares
                · rw [if_pos hcs, if_pos (List.mem_cons_of_mem _ hcs)]
                · rw [if_neg hcs, if_neg (fun hc => by
                    rcases List.mem_cons.mp hc with hc | hc
                    exacts [hcnh hc, hcs hc])]
    · rename_i hf
      have hlne := hv.ne
      have htmem := getLastD_mem g.snake_squares (0, 0) hlne
      have htdrop := getLastD_not_mem_dropLast g.snake_squares (0, 0) hlne hv.nodup
      have hdnodup := nodup_dropLast g.snake_squares hv.nodup
      have htfood : g.snake_squares.getLastD (0, 0) ≠ g.food_square := by
        intro hc; rw [hc] at htmem; exact hv.food_not htmem
      split
      · rename_i hcol
        have hcol2 : updateBoard g.board (g.snake_squares.getLastD (0, 0)) 0 nh = 1 := hcol
        have hnht : nh ≠ g.snake_squares.getLastD (0, 0) := by
          intro hc
          rw [hc, updateBoard_self] at hcol2
          omega
        rw [updateBoard_of_ne _ _ _ _ hnht, hv.rep] at hcol2
        have hnhsnake : nh ∈ g.snake_squares := by
          unfold boardRep at hcol2
          by_cases h1 : nh = g.food_square
          · rw [if_pos h1] at hcol2; omega
          · rw [if_neg h1] at hcol2
            by_cases h2 : nh ∈ g.snake_squares
            · exact h2
            · rw [if_neg h2] at hcol2; omega
        have hnhdrop : nh ∈ g.snake_squares.dropLast := by
          rcases (mem_dropLast_or_getLastD g.snake_squares (0, 0) nh hlne).mp hnhsnake
            with h1 | h1
          · exact h1
          · exact absurd h1 hnht
        have hdne : g.snake_squares.dropLast ≠ [] := by
          intro hc; rw [hc] at hnhdrop; exact List.not_mem_nil _ hnhdrop
        refine valid_mk _ _ _ _ _ _ _ hdne hdnodup ?_ hv.food_in ?_ ?_
        · intro c hc
          exact hv.snake_in c ((List.dropLast_sublist _).subset hc)
        · intro hc
          exact hv.food_not ((List.dropLast_sublist _).subset hc)
        · intro c
          show updateBoard g.board (g.snake_squares.getLastD (0, 0)) 0 c
            = boardRep g.snake_squares.dropLast g.food_square c
          by_cases hct : c = g.snake_squares.getLastD (0, 0)
          · rw [hct, updateBoard_self]
            unfold boardRep
            rw [if_neg htfood, if_neg htdrop]
          · rw [updateBoard_of_ne _ _ _ _ hct, hv.rep]
            unfold boardRep
            by_cases hcf : c = g.food_square
            · rw [if_pos hcf, if_pos hcf]
            · rw [if_neg hcf, if_neg hcf]
              by_cases hcd : c ∈ g.snake_squares.dropLast
              · rw [if_pos ((List.dropLast_sublist _).subset hcd), if_pos hcd]
              · rw [if_neg (fun hcs => by
                    rcases (mem_dropLast_or_getLastD g.snake_squares (0, 0) c hlne).mp hcs
                      with h1 | h1
                    exacts [hcd h1, hct h1]), if_neg hcd]
      · rename_i hcol
        have hcol2 : ¬ updateBoard g.board (g.snake_squares.getLastD (0, 0)) 0 nh = 1 := hcol
        have hnhdrop : nh ∉ g.snake_squares.dropLast := by
          intro hc
          have hnht : nh ≠ g.snake_squares.getLastD (0, 0) := by
            intro he; rw [he] at hc; exact htdrop hc
          apply hcol2
          rw [updateBoard_of_ne _ _ _ _ hnht, hv.rep]
          unfold boardRep
          rw [if_neg hf, if_pos ((List.dropLast_sublist _).subset hc)]
        refine valid_mk _ _ _ _ _ _ _ (List.cons_ne_nil _ _)
          (List.nodup_cons.mpr ⟨hnhdrop, hdnodup⟩) ?_ hv.food_in ?_ ?_
        · intro c hc
          rcases List.mem_cons.mp hc with hc | hc
          · rw [hc]; exact hb
          · exact hv.snake_in c ((List.dropLast_sublist _).subset hc)
        · intro hc
          rcases List.mem_cons.mp hc with hc | hc
          · exact hf hc.symm
          · exact hv.food_not ((List.dropLast_sublist _).subset hc)
        · intro c
          show updateBoard (updateBoard g.board (g.snake_squares.getLastD (0, 0)) 0) nh 1 c
            = boardRep (nh :: g.snake_squares.dropLast) g.food_square c
          by_cases hcnh : c = nh
          · rw [hcnh, updateBoard_self]
            unfold boardRep
            rw [if_neg hf, if_pos (List.mem_cons_self _ _)]
          · rw [updateBoard_of_ne _ _ _ _ hcnh]
            by_cases hct : c = g.snake_squares.getLastD (0, 0)
            · rw [hct, updateBoard_self]
              unfold boardRep
              rw [if_neg htfood, if_neg (fun hm => by
                  rcases List.mem_cons.mp hm with hm | hm
                  exacts [hcnh (hct.trans hm), htdrop hm])]
            · rw [updateBoard_of_ne _ _ _ _ hct, hv.rep]
              unfold boardRep
              by_cases hcf : c = g.food_square
              · rw [if_pos hcf, if_pos hcf]
              · rw [if_neg hcf, if_neg hcf]
                by_cases hcd : c ∈ g.snake_squares.dropLast
                · rw [if_pos ((List.dropLast_sublist _).subset hcd),
                      if_pos (List.mem_cons_of_mem _ hcd)]
                · rw [if_neg (fun hcs => by
                      rcases (mem_dropLast_or_getLastD g.snake_squares (0, 0) c hlne).mp hcs
                        with h1 | h1
                      exacts [hcd h1, hct h1]), if_neg (fun hm => by
                      rcases List.mem_cons.mp hm with hm | hm
                      exacts [hcnh hm, hcd hm])]

lemma valid_step (g : SnakeGame) (d : Dir) (k : Nat) (hv : Valid g) :
    Valid (g.step d k).1 := by
  by_cases h0 : g.game_over = true
  · unfold SnakeGame.step
    rw [if_pos h0]
    exact hv
  · rw [step_eq_stepCore g d k (Bool.not_eq_true _ ▸ h0) hv.ne]
    exact valid_stepCore _ _ _ (valid_set_dir g (g.resolvedDir d) hv)

lemma valid_reset (w h : Nat) (head : Coord) (k : Nat) (g : SnakeGame)
    (hr : SnakeGame.reset w h head k = some g) (hin : inBounds w h head) :
    Valid g := by
  cases hch : listChoice (emptyCells w h (updateBoard (fun _ => 0) head 1)) k with
  | none =>
    simp only [SnakeGame.reset, hch] at hr
    exact absurd hr (by simp)
  | some food =>
    simp only [SnakeGame.reset, hch, Option.some.injEq] at hr
    subst hr
    have hmem := listChoice_mem _ _ _ hch
    obtain ⟨hf0, hfin⟩ := emptyCells_mem _ _ _ _ hmem
    have hfh : food ≠ head := by
      intro hc
      rw [hc, updateBoard_self] at hf0
      omega
    refine valid_mk _ _ _ _ _ _ _ (List.cons_ne_nil _ _) (by simp) ?_ hfin ?_ ?_
    · intro c hc
      rcases List.mem_cons.mp hc with hc | hc
      · rw [hc]; exact hin
      · exact absurd hc (List.not_mem_nil c)
    · intro hc
      rcases List.mem_cons.mp hc with hc | hc
      · exact hfh hc
      · exact absurd hc (List.not_mem_nil _)
    · intro c
      show updateBoard (updateBoard (fun _ => 0) head 1) food 2 c = boardRep [head] food c
      by_cases hcf : c = food
      · rw [hcf, updateBoard_self]
        exact (boardRep_food _ _).symm
      · rw [updateBoard_of_ne _ _ _ _ hcf]
        unfold boardRep
        rw [if_neg hcf]
        by_cases hch2 : c = head
        · rw [hch2, updateBoard_self, if_pos (List.mem_cons_self _ _)]
        · rw [updateBoard_of_ne _ _ _ _ hch2, if_neg (fun hm => by
            rcases List.mem_cons.mp hm with hm | hm
            exacts [hch2 hm, List.not_mem_nil _ hm])]

lemma valid_conclusions (g : SnakeGame) (hv : Valid g) :
    (∃! c, g.board c = 2) ∧ ∀ c, (g.board c = 1 ↔ c ∈ g.snake_squares) := by
  constructor
  · refine ⟨g.food_square, ?_, ?_⟩
    · show g.board g.food_square = 2
      rw [hv.rep]; exact boardRep_food _ _
    · intro c hcpre
      have hc : g.board c = 2 := hcpre
      rw [hv.rep] at hc
      unfold boardRep at hc
      by_cases h1 : c = g.food_square
      · exact h1
      · rw [if_neg h1] at hc
        by_cases h2 : c ∈ g.snake_squares
        · rw [if_pos h2] at hc; omega
        · rw [if_neg h2] at hc; omega
  · intro c
    rw [hv.rep]
    unfold boardRep
    constructor
    · intro hc
      by_cases h1 : c = g.food_square
      · rw [if_pos h1] at hc; omega
      · rw [if_neg h1] at hc
        by_cases h2 : c ∈ g.snake_squares
        · exact h2
        · rw [if_neg h2] at hc; omega
    · intro hc
      have h1 : ¬ c = g.food_square := fun he => hv.food_not (he ▸ hc)
      rw [if_neg h1, if_pos hc]

lemma step_current_dir (g : SnakeGame) (d : Dir) (k : Nat)
    (h0 : g.game_over = false) (hne : g.snake_squares ≠ []) :
    (g.step d k).1.current_dir = g.resolvedDir d := by
  rw [step_eq_stepCore g d k h0 hne, stepCore_current_dir]

lemma resolvedDir_eq (g : SnakeGame) (d : Dir) (oh n : Coord) (body : List Coord)
    (hs : g.snake_squares = oh :: n :: body) (hrev : addc oh d.value = n) :
    g.resolvedDir d = g.current_dir := by
  unfold SnakeGame.resolvedDir
  rw [hs]
  simp [hrev]

lemma resolvedDir_single (g : SnakeGame) (d : Dir) (oh : Coord)
    (hs : g.snake_squares = [oh]) : g.resolvedDir d = d := by
  unfold SnakeGame.resolvedDir
  rw [hs]
  simp

lemma candidateHead_eq (g : SnakeGame) (d : Dir) (oh : Coord) (body : List Coord)
    (hs : g.snake_squares = oh :: body) :
    g.candidateHead d = addc oh (g.resolvedDir d).value := by
  unfold SnakeGame.candidateHead
  rw [hs]

lemma step_over (g : SnakeGame) (d : Dir) (k : Nat) (h : g.game_over = true) :
    g.step d k = (g, []) := by
  unfold SnakeGame.step
  rw [if_pos h]

lemma stepCore_out (g : SnakeGame) (nh : Coord) (k : Nat)
    (hout : ¬ inBounds g.width g.height nh) :
    g.stepCore nh k = ({ g with game_over := true }, [Event.dead]) := by
  unfold SnakeGame.stepCore
  rw [if_pos hout]

lemma stepCore_win (g : SnakeGame) (nh : Coord) (k : Nat)
    (hin : inBounds g.width g.height nh) (hf : nh = g.food_square)
    (hfull : emptyCells g.width g.height g.board = []) :
    g.stepCore nh k =
      ({ g with game_over := true }, [Event.eat g.food_square, Event.win]) := by
  unfold SnakeGame.stepCore
  rw [if_neg (not_not_intro hin), if_pos hf,
    (listChoice_eq_none (emptyCells g.width g.height g.board) k).mpr hfull]

lemma stepCore_eat (g : SnakeGame) (nh : Coord) (k : Nat) (nf : Coord)
    (hin : inBounds g.width g.height nh) (hf : nh = g.food_square)
    (hch : listChoice (emptyCells g.width g.height g.board) k = some nf) :
    g.stepCore nh k =
      SnakeGame.commitHead
        { g with food_square := nf, board := updateBoard g.board nf 2 }
        nh [Event.eat g.food_square, Event.newFood nf] := by
  unfold SnakeGame.stepCore
  rw [if_neg (not_not_intro hin), if_pos hf, hch]

lemma stepCore_move (g : SnakeGame) (nh : Coord) (k : Nat)
    (hin : inBounds g.width g.height nh) (hf : ¬ nh = g.food_square) :
    g.stepCore nh k =
      SnakeGame.commitHead
        { g with board := updateBoard g.board (g.snake_squares.getLastD (0, 0)) 0,
                 snake_squares := g.snake_squares.dropLast }
        nh [Event.remove (g.snake_squares.getLastD (0, 0))] := by
  unfold SnakeGame.stepCore
  rw [if_neg (not_not_intro hin), if_neg hf]

lemma stepCore_collision (g : SnakeGame) (nh : Coord) (k : Nat)
    (hin : inBounds g.width g.height nh) (hnf : ¬ nh = g.food_square)
    (hcol : updateBoard g.board (g.snake_squares.getLastD (0, 0)) 0 nh = 1) :
    g.stepCore nh k =
      ({ g with board := updateBoard g.board (g.snake_squares.getLastD (0, 0)) 0,
                snake_squares := g.snake_squares.dropLast, game_over := true },
        [Event.dead]) := by
  rw [stepCore_move g nh k hin hnf]
  have hcol2 : SnakeGame.board { g with board := updateBoard g.board (g.snake_squares.getLastD (0, 0)) 0, snake_squares := g.snake_squares.dropLast } nh = 1 := hcol
  rw [commitHead_dead _ _ _ hcol2]

lemma stepCore_events (g : SnakeGame) (nh : Coord) (k : Nat)
    (hend : (g.stepCore nh k).1.game_over = false) :
    (nh = g.food_square ∧ ∃ nf,
        (g.stepCore nh k).2 =
          [Event.eat g.food_square, Event.newFood nf, Event.add nh]) ∨
    (nh ≠ g.food_square ∧
        (g.stepCore nh k).2 =
          [Event.remove (g.snake_squares.getLastD (0, 0)), Event.add nh]) := by
  by_cases hb : inBounds g.width g.height nh
  · by_cases hf : nh = g.food_square
    · cases hch : listChoice (emptyCells g.width g.height g.board) k with
      | none =>
        rw [stepCore_win g nh k hb hf ((listChoice_eq_none _ _).mp hch)] at hend
        simp at hend
      | some nf =>
        rw [stepCore_eat g nh k nf hb hf hch] at hend ⊢
        by_cases hcol : SnakeGame.board { g with food_square := nf, board := updateBoard g.board nf 2 } nh = 1
        · rw [commitHead_dead _ _ _ hcol] at hend
          simp at hend
        · rw [commitHead_grow _ _ _ hcol]
          left
          exact ⟨hf, nf, by simp⟩
    · rw [stepCore_move g nh k hb hf] at hend ⊢
      by_cases hcol : SnakeGame.board { g with board := updateBoard g.board (g.snake_squares.getLastD (0, 0)) 0, snake_squares := g.snake_squares.dropLast } nh = 1
      · rw [commitHead_dead _ _ _ hcol] at hend
        simp at hend
      · rw [commitHead_grow _ _ _ hcol]
        right
        exact ⟨hf, by simp⟩
  · rw [stepCore_out g nh k hb] at hend
    simp at hend

lemma stepCore_events_cases (g : SnakeGame) (nh : Coord) (k : Nat) :
    (g.stepCore nh k).2 = [Event.dead] ∨
    (g.stepCore nh k).2 = [Event.eat g.food_square, Event.win] ∨
    (∃ nf, (g.stepCore nh k).2 =
      [Event.eat g.food_square, Event.newFood nf, Event.add nh]) ∨
    (g.stepCore nh k).2 =
      [Event.remove (g.snake_squares.getLastD (0, 0)), Event.add nh] := by
  by_cases hb : inBounds g.width g.height nh
  · by_cases hf : nh = g.food_square
    · cases hch : listChoice (emptyCells g.width g.height g.board) k with
      | none =>
        rw [stepCore_win g nh k hb hf ((listChoice_eq_none _ _).mp hch)]
        right; left; rfl
      | some nf =>
        rw [stepCore_eat g nh k nf hb hf hch]
        by_cases hcol : SnakeGame.board { g with food_square := nf, board := updateBoard g.board nf 2 } nh = 1
        · rw [commitHead_dead _ _ _ hcol]
          left; rfl
        · rw [commitHead_grow _ _ _ hcol]
          right; right; left
          exact ⟨nf, by simp⟩
    · rw [stepCore_move g nh k hb hf]
      by_cases hcol : SnakeGame.board { g with board := updateBoard g.board (g.snake_squares.getLastD (0, 0)) 0, snake_squares := g.snake_squares.dropLast } nh = 1
      · rw [commitHead_dead _ _ _ hcol]
        left; rfl
      · rw [commitHead_grow _ _ _ hcol]
        right; right; right
        simp
  · rw [stepCore_out g nh k hb]
    left; rfl

lemma stepCore_length (g : SnakeGame) (nh : Coord) (k : Nat)
    (hne : g.snake_squares ≠ [])
    (hd : Event.dead ∉ (g.stepCore nh k).2)
    (hw : Event.win ∉ (g.stepCore nh k).2) :
    ((∀ c, Event.eat c ∉ (g.stepCore nh k).2) →
        (g.stepCore nh k).1.snake_squares.length = g.snake_squares.length) ∧
    ((∃ c, Event.eat c ∈ (g.stepCore nh k).2) →
        (g.stepCore nh k).1.snake_squares.length = g.snake_squares.length + 1) := by
  by_cases hb : inBounds g.width g.height nh
  · by_cases hf : nh = g.food_square
    · cases hch : listChoice (emptyCells g.width g.height g.board) k with
      | none =>
        rw [stepCore_win g nh k hb hf ((listChoice_eq_none _ _).mp hch)] at hw
        simp at hw
      | some nf =>
        rw [stepCore_eat g nh k nf hb hf hch] at hd ⊢
        by_cases hcol : SnakeGame.board { g with food_square := nf, board := updateBoard g.board nf 2 } nh = 1
        · rw [commitHead_dead _ _ _ hcol] at hd
          simp at hd
        · rw [commitHead_grow _ _ _ hcol]
          constructor
          · intro hno
            exact absurd (by simp : Event.eat g.food_square ∈
              [Event.eat g.food_square, Event.newFood nf] ++ [Event.add nh])
              (hno g.food_square)
          · intro _
            simp
    · rw [stepCore_move g nh k hb hf] at hd ⊢
      by_cases hcol : SnakeGame.board { g with board := updateBoard g.board (g.snake_squares.getLastD (0, 0)) 0, snake_squares := g.snake_squares.dropLast } nh = 1
      · rw [commitHead_dead _ _ _ hcol] at hd
        simp at hd
      · rw [commitHead_grow _ _ _ hcol]
        constructor
        · intro _
          show (nh :: g.snake_squares.dropLast).length = g.snake_squares.length
          rw [List.length_cons, List.length_dropLast]
          have := List.length_pos.mpr hne
          omega
        · rintro ⟨c, hc⟩
          simp at hc
  · rw [stepCore_out g nh k hb] at hd
    simp at hd

lemma validGW : Valid gW :=
  ⟨by decide, by decide, by decide, by decide, by decide, fun c => rfl⟩

/-- Claim C5: on a non-terminal game, when the resolved candidate head is out
of the board bounds, step sets the game over flag and returns exactly the
single event list with Dead, leaving the board grid, the snake body sequence
and the food coordinate unchanged. -/
theorem offboard_dead (g : SnakeGame) (d : Dir) (k : Nat)
    (h0 : g.game_over = false) (hne : g.snake_squares ≠ [])
    (hout : ¬ inBounds g.width g.height (g.candidateHead d)) :
    (g.step d k).2 = [Event.dead] ∧
    (g.step d k).1.game_over = true ∧
    (g.step d k).1.board = g.board ∧
    (g.step d k).1.snake_squares = g.snake_squares ∧
    (g.step d k).1.food_square = g.food_square := by
  rw [step_eq_stepCore g d k h0 hne,
    stepCore_out { g with current_dir := g.resolvedDir d } (g.candidateHead d) k hout]
  exact ⟨rfl, rfl, rfl, rfl, rfl⟩

theorem offboard_dead_witness :
    (gW.step Dir.south 0).2 = [Event.dead] ∧
    (gW.step Dir.south 0).1.game_over = true ∧
    (gW.step Dir.south 0).1.board = gW.board ∧
    (gW.step Dir.south 0).1.snake_squares = gW.snake_squares ∧
    (gW.step Dir.south 0).1.food_square = gW.food_square :=
  offboard_dead gW Dir.south 0 rfl (by decide) (by decide)

/-- Claim C4: on a non-terminal game, when the resolved candidate head equals
the food coordinate and no empty cell is left to place new food, step sets the
game over flag and returns exactly the events Eat of the old food coordinate
followed by Win, and neither the board grid, nor the snake body, nor the food
coordinate is mutated, so the count of Snake cells does not increase. -/
theorem win_freeze (g : SnakeGame) (d : Dir) (k : Nat)
    (h0 : g.game_over = false) (hne : g.snake_squares ≠ [])
    (hin : inBounds g.width g.height (g.candidateHead d))
    (hf : g.candidateHead d = g.food_square)
    (hfull : emptyCells g.width g.height g.board = []) :
    (g.step d k).2 = [Event.eat g.food_square, Event.win] ∧
    (g.step d k).1.game_over = true ∧
    (g.step d k).1.board = g.board ∧
    (g.step d k).1.snake_squares = g.snake_squares ∧
    (g.step d k).1.food_square = g.food_square := by
  rw [step_eq_stepCore g d k h0 hne,
    stepCore_win { g with current_dir := g.resolvedDir d } (g.candidateHead d) k hin hf hfull]
  exact ⟨rfl, rfl, rfl, rfl, rfl⟩

theorem win_freeze_witness :
    (gC.step Dir.east 0).2 = [Event.eat gC.food_square, Event.win] ∧
    (gC.step Dir.east 0).1.game_over = true ∧
    (gC.step Dir.east 0).1.board = gC.board ∧
    (gC.step Dir.east 0).1.snake_squares = gC.snake_squares ∧
    (gC.step Dir.east 0).1.food_square = gC.food_square :=
  win_freeze gC Dir.east 0 rfl (by decide) (by decide) (by decide) (by decide)

/-- Claim C8: once the game over flag is set, the engine step is a pure no-op
returning the empty event sequence and leaving the state untouched, and the
adapter step immediately returns the sentinel of no board, zero reward and
terminal true. -/
theorem terminal_noop (g : SnakeGame) (d : Dir) (a : Int) (k k2 : Nat)
    (h : g.game_over = true) :
    g.step d k = (g, []) ∧
    SnakeEnv.step g a k2 = some (g, { board := none, reward := 0, done := true }) := by
  refine ⟨step_over g d k h, ?_⟩
  unfold SnakeEnv.step
  rw [if_pos h]

theorem terminal_noop_witness :
    gOver.game_over = true ∧
    (gOver.step Dir.north 0 = (gOver, []) ∧
      SnakeEnv.step gOver 0 0 = some (gOver, { board := none, reward := 0, done := true })) :=
  ⟨rfl, terminal_noop gOver Dir.north 0 0 0 rfl⟩

/-- Claim C10: when a non-terminal step dies by self collision (candidate head
in bounds, not on the food, and its board cell still marked Snake after the
tail removal), the step returns exactly the Dead event but the tail removal is
not rolled back: the resulting snake body is the old body without its tail,
one segment shorter, the vacated tail cell is Empty on the board, and the food
coordinate is unchanged. -/
theorem collision_frame (g : SnakeGame) (d : Dir) (k : Nat)
    (h0 : g.game_over = false) (hne : g.snake_squares ≠ [])
    (hin : inBounds g.width g.height (g.candidateHead d))
    (hnf : ¬ g.candidateHead d = g.food_square)
    (hcol : updateBoard g.board (g.snake_squares.getLastD (0, 0)) 0 (g.candidateHead d) = 1) :
    (g.step d k).2 = [Event.dead] ∧
    (g.step d k).1.game_over = true ∧
    (g.step d k).1.snake_squares = g.snake_squares.dropLast ∧
    (g.step d k).1.snake_squares.length + 1 = g.snake_squares.length ∧
    (g.step d k).1.board = updateBoard g.board (g.snake_squares.getLastD (0, 0)) 0 ∧
    (g.step d k).1.board (g.snake_squares.getLastD (0, 0)) = 0 ∧
    (g.step d k).1.food_square = g.food_square := by
  rw [step_eq_stepCore g d k h0 hne,
    stepCore_collision { g with current_dir := g.resolvedDir d } (g.candidateHead d) k
      hin hnf hcol]
  refine ⟨rfl, rfl, rfl, ?_, rfl, ?_, rfl⟩
  · show g.snake_squares.dropLast.length + 1 = g.snake_squares.length
    rw [List.length_dropLast]
    have := List.length_pos.mpr hne
    omega
  · exact updateBoard_self _ _ _

theorem collision_frame_witness :
    (gU.step Dir.south 0).2 = [Event.dead] ∧
    (gU.step Dir.south 0).1.game_over = true ∧
    (gU.step Dir.south 0).1.snake_squares = gU.snake_squares.dropLast ∧
    (gU.step Dir.south 0).1.snake_squares.length + 1 = gU.snake_squares.length ∧
    (gU.step Dir.south 0).1.board = updateBoard gU.board (gU.snake_squares.getLastD (0, 0)) 0 ∧
    (gU.step Dir.south 0).1.board (gU.snake_squares.getLastD (0, 0)) = 0 ∧
    (gU.step Dir.south 0).1.food_square = gU.food_square :=
  collision_frame gU Dir.south 0 rfl (by decide) (by decide) (by decide) (by decide)

/-- Claim C1: on a non-terminal game, a step that does not itself end the game
returns exactly one of two event sequences, in order: Eat of the old food
coordinate, NewFood of the new food coordinate and Add of the new head when
the candidate head equals the food coordinate (no Remove event), or Remove of
the old tail followed by Add of the new head when it does not. -/
theorem step_event_shapes (g : SnakeGame) (d : Dir) (k : Nat)
    (h0 : g.game_over = false) (hne : g.snake_squares ≠ [])
    (hend : (g.step d k).1.game_over = false) :
    (g.candidateHead d = g.food_square ∧ ∃ nf,
        (g.step d k).2 = [Event.eat g.food_square, Event.newFood nf,
          Event.add (g.candidateHead d)]) ∨
    (g.candidateHead d ≠ g.food_square ∧
        (g.step d k).2 = [Event.remove (g.snake_squares.getLastD (0, 0)),
          Event.add (g.candidateHead d)]) := by
  rw [step_eq_stepCore g d k h0 hne] at hend ⊢
  exact stepCore_events { g with current_dir := g.resolvedDir d } (g.candidateHead d) k hend

theorem step_event_shapes_witness :
    (gW.candidateHead Dir.west = gW.food_square ∧ ∃ nf,
        (gW.step Dir.west 0).2 = [Event.eat gW.food_square, Event.newFood nf,
          Event.add (gW.candidateHead Dir.west)]) ∨
    (gW.candidateHead Dir.west ≠ gW.food_square ∧
        (gW.step Dir.west 0).2 = [Event.remove (gW.snake_squares.getLastD (0, 0)),
          Event.add (gW.candidateHead Dir.west)]) :=
  step_event_shapes gW Dir.west 0 rfl (by decide) (by decide)

/-- Claim C2: on a snake of length at least two whose remembered direction is
consistent with the neck (the neck plus the current direction offset gives the
head), a request that would step onto the neck is silently replaced by the
remembered current direction: the candidate head is the old head plus the
previous direction offset, the current direction after the step is unchanged,
and the substituted candidate head is not the neck cell, so the reversal
itself causes no Dead event. For a snake of length one the requested direction
is always honored. -/
theorem reversal_guard (g : SnakeGame) (d : Dir) (k : Nat) (oh neck : Coord)
    (rest : List Coord)
    (hs : g.snake_squares = oh :: neck :: rest)
    (hrev : addc oh d.value = neck)
    (hcons : addc neck g.current_dir.value = oh) :
    g.resolvedDir d = g.current_dir ∧
    g.candidateHead d = addc oh g.current_dir.value ∧
    g.candidateHead d ≠ neck ∧
    (g.step d k).1.current_dir = g.current_dir ∧
    (∀ g1 : SnakeGame, ∀ oh1 : Coord, ∀ d1 : Dir, g1.snake_squares = [oh1] →
      g1.resolvedDir d1 = d1 ∧ g1.candidateHead d1 = addc oh1 d1.value) := by
  have hres := resolvedDir_eq g d oh neck rest hs hrev
  have hcand : g.candidateHead d = addc oh g.current_dir.value := by
    rw [candidateHead_eq g d oh (neck :: rest) hs, hres]
  refine ⟨hres, hcand, ?_, ?_, ?_⟩
  · rw [hcand]
    intro hc
    rw [← hcons] at hc
    cases hcur : g.current_dir <;>
      rw [hcur] at hc <;>
      simp only [addc, Dir.value, Prod.ext_iff] at hc <;>
      omega
  · by_cases hover : g.game_over = true
    · rw [step_over g d k hover]
    · rw [step_current_dir g d k (by simp at hover; exact hover)
        (by rw [hs]; exact List.cons_ne_nil _ _), hres]
  · intro g1 oh1 d1 hs1
    refine ⟨resolvedDir_single g1 d1 oh1 hs1, ?_⟩
    rw [candidateHead_eq g1 d1 oh1 [] hs1, resolvedDir_single g1 d1 oh1 hs1]

theorem reversal_guard_witness :
    gB.resolvedDir Dir.north = gB.current_dir ∧
    gB.candidateHead Dir.north = addc ((4 : Int), (4 : Int)) gB.current_dir.value ∧
    gB.candidateHead Dir.north ≠ ((4 : Int), (5 : Int)) ∧
    (gB.step Dir.north 0).1.current_dir = gB.current_dir ∧
    (∀ g1 : SnakeGame, ∀ oh1 : Coord, ∀ d1 : Dir, g1.snake_squares = [oh1] →
      g1.resolvedDir d1 = d1 ∧ g1.candidateHead d1 = addc oh1 d1.value) :=
  reversal_guard gB Dir.north 0 ((4 : Int), (4 : Int)) ((4 : Int), (5 : Int)) [] rfl
    (by decide) (by decide)

/-- Claim C6: a non-terminal step that ends neither in Dead nor in Win
preserves the snake body length when no food is eaten and increases it by
exactly one when an Eat event is emitted. -/
theorem step_length_conservation (g : SnakeGame) (d : Dir) (k : Nat)
    (h0 : g.game_over = false)
    (hd : Event.dead ∉ (g.step d k).2) (hw : Event.win ∉ (g.step d k).2) :
    ((∀ c, Event.eat c ∉ (g.step d k).2) →
        (g.step d k).1.snake_squares.length = g.snake_squares.length) ∧
    ((∃ c, Event.eat c ∈ (g.step d k).2) →
        (g.step d k).1.snake_squares.length = g.snake_squares.length + 1) := by
  by_cases hsnake : g.snake_squares = []
  · have hstep : g.step d k = (g, []) := by
      unfold SnakeGame.step
      rw [if_neg (by rw [h0]; exact Bool.false_ne_true), hsnake]
    rw [hstep]
    constructor
    · intro _; rfl
    · rintro ⟨c, hc⟩
      simp at hc
  · rw [step_eq_stepCore g d k h0 hsnake] at hd hw ⊢
    exact stepCore_length { g with current_dir := g.resolvedDir d } (g.candidateHead d) k
      hsnake hd hw

theorem step_length_conservation_witness :
    ((∀ c, Event.eat c ∉ (gW.step Dir.west 0).2) →
        (gW.step Dir.west 0).1.snake_squares.length = gW.snake_squares.length) ∧
    ((∃ c, Event.eat c ∈ (gW.step Dir.west 0).2) →
        (gW.step Dir.west 0).1.snake_squares.length = gW.snake_squares.length + 1) :=
  step_length_conservation gW Dir.west 0 rfl (by decide) (by decide)

/-- Claim C7 as stated is false: it demands an invalid action error in every
state of the game, but when the game is already terminal the adapter returns
the fixed sentinel before validating the action. Concretely, action 5 on a
terminal game yields the sentinel instead of an error. -/
theorem invalid_action_counterexample :
    ¬ (0 ≤ (5 : Int) ∧ (5 : Int) < 4) ∧
    SnakeEnv.step gOver 5 0 = some (gOver, { board := none, reward := 0, done := true }) ∧
    SnakeEnv.step gOver 5 0 ≠ none :=
  ⟨by decide, rfl, fun h => Option.noConfusion h⟩

/-- Claim C7 amended: for every action value outside the four valid
directions, the adapter step fails fast with an invalid action error whenever
the underlying game is non-terminal; on a terminal game the fixed sentinel is
returned before the action is validated. -/
theorem invalid_action_fails (g : SnakeGame) (a : Int) (k : Nat)
    (h0 : g.game_over = false) (ha : ¬ (0 ≤ a ∧ a < 4)) :
    SnakeEnv.step g a k = none := by
  unfold SnakeEnv.step
  rw [if_neg (by simp [h0]), if_pos ha]

theorem invalid_action_fails_witness :
    gW.game_over = false ∧ ¬ (0 ≤ (5 : Int) ∧ (5 : Int) < 4) ∧
    SnakeEnv.step gW 5 0 = none :=
  ⟨rfl, by decide, invalid_action_fails gW 5 0 rfl (by decide)⟩

lemma step_events_cases (g : SnakeGame) (d : Dir) (k : Nat) :
    (g.step d k).2 = [] ∨ (g.step d k).2 = [Event.dead] ∨
    (∃ fc, (g.step d k).2 = [Event.eat fc, Event.win]) ∨
    (∃ fc nf nh, (g.step d k).2 = [Event.eat fc, Event.newFood nf, Event.add nh]) ∨
    (∃ t nh, (g.step d k).2 = [Event.remove t, Event.add nh]) := by
  by_cases h0 : g.game_over = true
  · rw [step_over g d k h0]
    left; rfl
  · by_cases hsnake : g.snake_squares = []
    · have hstep : g.step d k = (g, []) := by
        unfold SnakeGame.step
        rw [if_neg h0, hsnake]
      rw [hstep]
      left; rfl
    · rw [step_eq_stepCore g d k (by simp at h0; exact h0) hsnake]
      rcases stepCore_events_cases { g with current_dir := g.resolvedDir d }
          (g.candidateHead d) k with h | h | ⟨nf, h⟩ | h
      · right; left; exact h
      · right; right; left; exact ⟨_, h⟩
      · right; right; right; left; exact ⟨_, nf, _, h⟩
      · right; right; right; right; exact ⟨_, _, h⟩

/-- Claim C9: for a valid action on a non-terminal game the adapter returns
the engine result together with a scalar reward that is minus one when the
event sequence contains Dead, plus one when it contains an Eat event and zero
otherwise, and no engine event sequence ever contains both a Dead and an
Eat event. -/
theorem adapter_reward (g : SnakeGame) (a : Int) (k : Nat)
    (h0 : g.game_over = false) (ha : 0 ≤ a ∧ a < 4) :
    ¬ (Event.dead ∈ (g.step (actionDir a) k).2 ∧
        (g.step (actionDir a) k).2.any isEat = true) ∧
    SnakeEnv.step g a k =
      some ((g.step (actionDir a) k).1,
        { board := some (g.step (actionDir a) k).1.board,
          reward := if Event.dead ∈ (g.step (actionDir a) k).2 then -1
            else if (g.step (actionDir a) k).2.any isEat = true then 1 else 0,
          done := (g.step (actionDir a) k).1.game_over }) := by
  have hrew : computeReward (g.step (actionDir a) k).2 =
      (if Event.dead ∈ (g.step (actionDir a) k).2 then -1
        else if (g.step (actionDir a) k).2.any isEat = true then 1 else 0) ∧
      ¬ (Event.dead ∈ (g.step (actionDir a) k).2 ∧
        (g.step (actionDir a) k).2.any isEat = true) := by
    rcases step_events_cases g (actionDir a) k with h | h | ⟨fc, h⟩ | ⟨fc, nf, nh, h⟩ | ⟨t, nh, h⟩ <;>
      rw [h] <;>
      exact ⟨by simp [computeReward, eventReward, isEat], by simp [isEat]⟩
  refine ⟨hrew.2, ?_⟩
  simp only [SnakeEnv.step]
  rw [if_neg (by simp [h0]), if_neg (not_not_intro ha), hrew.1]

theorem adapter_reward_witness :
    (¬ (Event.dead ∈ (gW.step (actionDir 3) 0).2 ∧
        (gW.step (actionDir 3) 0).2.any isEat = true)) ∧
    SnakeEnv.step gW 3 0 =
      some ((gW.step (actionDir 3) 0).1,
        { board := some (gW.step (actionDir 3) 0).1.board,
          reward := if Event.dead ∈ (gW.step (actionDir 3) 0).2 then -1
            else if (gW.step (actionDir 3) 0).2.any isEat = true then 1 else 0,
          done := (gW.step (actionDir 3) 0).1.game_over }) :=
  adapter_reward gW 3 0 rfl (by decide)

/-- Claim C3: after a reset with an in-bounds head, and after every step from
a valid non-terminal state that does not end in a Win, exactly one board cell
holds the Food value and the set of board cells holding the Snake value is
exactly the set of coordinates of the snake body sequence. -/
theorem invariant_food_snake :
    (∀ w h head k g, SnakeGame.reset w h head k = some g → inBounds w h head →
        ((∃! c, g.board c = 2) ∧ ∀ c, (g.board c = 1 ↔ c ∈ g.snake_squares))) ∧
    (∀ g d k, Valid g → g.game_over = false → Event.win ∉ (g.step d k).2 →
        ((∃! c, (g.step d k).1.board c = 2) ∧
          ∀ c, ((g.step d k).1.board c = 1 ↔ c ∈ (g.step d k).1.snake_squares))) := by
  constructor
  · intro w h head k g hr hin
    exact valid_conclusions g (valid_reset w h head k g hr hin)
  · intro g d k hv h0 hwin
    exact valid_conclusions _ (valid_step g d k hv)

theorem invariant_food_snake_witness :
    ((∃! c, gR.board c = 2) ∧ ∀ c, (gR.board c = 1 ↔ c ∈ gR.snake_squares)) ∧
    ((∃! c, (gW.step Dir.west 0).1.board c = 2) ∧
      ∀ c, ((gW.step Dir.west 0).1.board c = 1 ↔ c ∈ (gW.step Dir.west 0).1.snake_squares)) :=
  ⟨invariant_food_snake.1 2 2 ((0 : Int), (0 : Int)) 0 gR rfl (by decide),
   invariant_food_snake.2 gW Dir.west 0 validGW rfl (by decide)⟩
